import Mathlib

set_option maxHeartbeats 1000000
set_option maxRecDepth 16384

namespace AmiaBlog

/-!
Shallow embedding of the AmiaBlog content subsystem (src/utils.py):
post parsing, the posts/tags/search-index store (`PostsManager`), the two
search strategies, ordering, and RSS generation.

Modelling conventions:
* `datetime.date` values are modelled as day numbers (`Nat`); only their order
  is ever used by the embedded code.
* Python's insertion-ordered `dict` is modelled as an association list with
  in-place update on an existing key and append on a new key, which matches
  CPython dict semantics.
* Strings are handled at the `List Char` level where Python iterates over
  characters; `str.lower()` is modelled for ASCII.
* The YAML decoding inside `parse_post` and the jieba segmenter are external
  libraries: the metadata block is returned as its list of lines, and the
  tokenizer is a parameter of `search`.
* A document source is a list of `SourceDoc` (filename plus parse outcome),
  standing for the directory listing that `load_posts` iterates over.
-/

/-- Dates (datetime.date) are modelled as day numbers. -/
abbrev Date := Nat

/-- PostMetadata (utils.py): title, publish date, last-modified date, tags,
description, published flag, author, optional keywords. -/
structure PostMetadata where
  title : String
  date : Date
  last_modified : Date
  tags : List String
  description : String
  published : Bool
  author : String
  keywords : List String := []
  deriving DecidableEq

/-- Post (utils.py): metadata plus raw body and slug. -/
structure Post where
  metadata : PostMetadata
  content : String
  slug : String
  deriving DecidableEq

/-! ### String helpers (Python string operations used by utils.py) -/

/-- Splits a character list on a separator character, like Python's
`str.split(sep)`: returns the (always nonempty) list of chunks. -/
def splitChar (sep : Char) : List Char → List (List Char)
  | [] => [[]]
  | c :: cs =>
    match splitChar sep cs with
    | [] => [[]]
    | l :: ls => if c = sep then [] :: l :: ls else (c :: l) :: ls

/-- Python's `content.split("\n")`. -/
def splitLinesStr (s : String) : List String :=
  (splitChar '\n' s.toList).map (fun cs => String.mk cs)

/-- Python's `sep.join(parts)`. -/
def joinSep (sep : String) : List String → String
  | [] => ""
  | [s] => s
  | s :: rest => s ++ sep ++ joinSep sep rest

/-- Python's `"\n".join(lines)`. -/
def joinLines (lines : List String) : String := joinSep "\n" lines

/-- ASCII lowercasing of one character (`str.lower()` on the ASCII range). -/
def lowerChar (c : Char) : Char :=
  if 65 ≤ c.toNat ∧ c.toNat ≤ 90 then Char.ofNat (c.toNat + 32) else c

/-- ASCII `str.lower()`. -/
def lowerStr (s : String) : String := String.mk (s.toList.map lowerChar)

/-- Python's `s.endswith(suffix)`. -/
def strEndsWith (s suffix : String) : Bool := suffix.toList.isSuffixOf s.toList

/-- Python's `s.rstrip("/")`. -/
def rstripSlash (s : String) : String :=
  String.mk ((s.toList.reverse.dropWhile (fun c => c = '/')).reverse)

/-- Whether `marker` occurs as a contiguous substring of `l` (used to state
facts about literal substring occurrence; `marker` is assumed nonempty). -/
def hasMarker (marker : List Char) : List Char → Bool
  | [] => false
  | c :: rest => marker.isPrefixOf (c :: rest) || hasMarker marker rest

/-- Literal (non-wildcard) substring test on strings. -/
def containsLit (needle hay : String) : Bool := hasMarker needle.toList hay.toList

/-! ### Post parsing (parse_post) -/

/-- The line loop of `parse_post`: every line equal to `"---"` sets the
`metadata_end` flag and is itself dropped (`continue`); any other line is
appended to the metadata lines or the content lines according to the flag. -/
def splitPostLines : Bool → List String → List String × List String
  | _, [] => ([], [])
  | metadataEnd, l :: rest =>
    if l = "---" then splitPostLines true rest
    else
      let p := splitPostLines metadataEnd rest
      if metadataEnd then (p.1, l :: p.2) else (l :: p.1, p.2)

/-- parse_post (utils.py): splits the raw document into the metadata block and
the body. The YAML decoding of the metadata block is an external library, so
the metadata is returned as its list of lines; the body is the remaining lines
joined with `"\n"`. -/
def parse_post (content : String) : List String × String :=
  let p := splitPostLines false (splitLinesStr content)
  (p.1, joinLines p.2)

/-! ### SQL LIKE (the in-memory sqlite index is queried only with LIKE) -/

/-- SQLite `LIKE` semantics as used by `PostsManager.search`: `%` matches any
(possibly empty) character sequence, `_` matches exactly one character, and
ordinary characters match ASCII case-insensitively (SQLite's default
case-insensitive LIKE). Structural on the pattern: a `%` matches iff the rest
of the pattern matches some suffix of the text. -/
def likeMatch : List Char → List Char → Bool
  | [], s => s.isEmpty
  | '%' :: p, s => s.tails.any (fun t => likeMatch p t)
  | '_' :: p, s =>
    match s with
    | [] => false
    | _ :: s2 => likeMatch p s2
  | c :: p, s =>
    match s with
    | [] => false
    | c2 :: s2 => (lowerChar c = lowerChar c2) && likeMatch p s2

/-- The pattern `f"%{kw}%"` that `search` binds to each LIKE. -/
def likePattern (kw : String) : List Char := '%' :: kw.toList ++ ['%']

/-- LIKE match of a pattern against a string column value. -/
def likeStr (pat : List Char) (s : String) : Bool := likeMatch pat s.toList

/-! ### Insertion-ordered dictionaries -/

/-- Lookup in an insertion-ordered association list (Python `dict` access). -/
def dlookup {α : Type} : List (String × α) → String → Option α
  | [], _ => none
  | (k, v) :: rest, key => if k = key then some v else dlookup rest key

/-- Python `d[k] = v`: update in place if the key exists, else append. -/
def dinsert {α : Type} : List (String × α) → String → α → List (String × α)
  | [], k, v => [(k, v)]
  | (k1, v1) :: rest, k, v =>
    if k1 = k then (k, v) :: rest else (k1, v1) :: dinsert rest k v

/-- Python `d[k] = d.get(k, 0) + 1` on a counter dict: this is both the tag
counter of `_build_tag_index` and the hit counter of the jieba search branch. -/
def bumpCount : List (String × Nat) → String → List (String × Nat)
  | [], k => [(k, 1)]
  | (k1, v1) :: rest, k =>
    if k1 = k then (k, v1 + 1) :: rest else (k1, v1) :: bumpCount rest k

/-- The count stored for a key (0 if absent). -/
def getCount (m : List (String × Nat)) (k : String) : Nat := (dlookup m k).getD 0

/-- Decidable equality for results of fallible operations. -/
instance {e a : Type} [DecidableEq e] [DecidableEq a] : DecidableEq (Except e a) :=
  fun x y =>
    match x, y with
    | .ok u, .ok v => decidable_of_iff (u = v) (by simp)
    | .error u, .error v => decidable_of_iff (u = v) (by simp)
    | .ok _, .error _ => isFalse (by simp)
    | .error _, .ok _ => isFalse (by simp)

/-! ### The content store (PostsManager) -/

/-- The two search strategies of the store. -/
inductive SearchMethod
  | fullmatch
  | jieba
  deriving DecidableEq

/-- One row of the in-memory sqlite search index: the per-post field snapshot
inserted by `_build_search_index` (title/tags/content/keywords lower-cased,
tag and keyword lists joined with `","`; the slug is stored as-is). -/
structure IndexRow where
  slug : String
  title : String
  tags : String
  content : String
  keywords : String
  deriving DecidableEq

/-- PostsManager state: slug→post dict, tag→count dict (the `count` field of
the `Tag` objects), the optional search index, and the fixed strategy. -/
structure PostsManager where
  posts : List (String × Post)
  tags : List (String × Nat)
  search_index : Option (List IndexRow)
  search_method : SearchMethod
  deriving DecidableEq

/-- A source document as `load_posts` sees it: the filename from the directory
listing and the outcome of `parse_post` plus metadata validation (`none`
models a parse failure, which is logged and skipped). -/
structure SourceDoc where
  filename : String
  parsed : Option (PostMetadata × String)
  deriving DecidableEq

/-- Python `".".join(filename.split(".")[:-1])`: the slug of a filename. -/
def slugOf (filename : String) : String :=
  joinSep "." (((splitChar '.' filename.toList).map (fun cs => String.mk cs)).dropLast)

/-- One iteration of the `load_posts` loop: process a single directory entry
(skip non-`.md` files, parse failures, and unpublished posts; otherwise store
the post under its slug). -/
def loadDoc (posts : List (String × Post)) (d : SourceDoc) : List (String × Post) :=
  if strEndsWith d.filename ".md" then
    match d.parsed with
    | none => posts
    | some (md, content) =>
      if md.published then
        dinsert posts (slugOf d.filename)
          { metadata := md, content := content, slug := slugOf d.filename }
      else posts
  else posts

/-- The posts dict built by the loop of `load_posts` from an empty dict. -/
def loadPosts (docs : List SourceDoc) : List (String × Post) :=
  docs.foldl loadDoc []

/-- `_build_tag_index`: for every post, for every tag occurrence, create the
tag with count 1 or increment its count. -/
def build_tag_index (posts : List (String × Post)) : List (String × Nat) :=
  posts.foldl (fun acc kv => kv.2.metadata.tags.foldl bumpCount acc) []

/-- Python's `",".join(parts)`. -/
def joinComma (parts : List String) : String := joinSep "," parts

/-- `_build_search_index`: one row per post, in post-dict order, with
lower-cased title, joined lower-cased tags, lower-cased content and joined
lower-cased keywords; the slug column is stored unchanged. -/
def build_search_index (posts : List (String × Post)) : List IndexRow :=
  posts.map (fun kv =>
    { slug := kv.2.slug
      title := lowerStr kv.2.metadata.title
      tags := lowerStr (joinComma kv.2.metadata.tags)
      content := lowerStr kv.2.content
      keywords := lowerStr (joinComma kv.2.metadata.keywords) })

/-- `PostsManager.load_posts`: clears the three structures and rebuilds them
in place; this definition is the resulting final state. The intermediate
states of the in-place rebuild are `loadTrace` below. -/
def PostsManager.load_posts (m : PostsManager) (docs : List SourceDoc)
    (build_index : Bool) : PostsManager :=
  let posts := loadPosts docs
  { m with
    posts := posts
    tags := build_tag_index posts
    search_index := if build_index then some (build_search_index posts) else none }

/-- `PostsManager.__init__`: fresh empty state, then `load_posts`. -/
def PostsManager.init (docs : List SourceDoc) (method : SearchMethod)
    (build_index : Bool) : PostsManager :=
  PostsManager.load_posts
    { posts := [], tags := [], search_index := none, search_method := method }
    docs build_index

/-- The sequence of store states observable during `load_posts`, in program
order: the initial state, the state after `self.posts.clear()`, after
`self.tags.clear()`, after closing and dropping the search index, after each
processed directory entry, after `_build_tag_index`, and after
`_build_search_index` (when requested). -/
def loadTrace (m : PostsManager) (docs : List SourceDoc)
    (build_index : Bool) : List PostsManager :=
  let s1 : PostsManager := { m with posts := [] }
  let s2 : PostsManager := { s1 with tags := [] }
  let s3 : PostsManager := { s2 with search_index := none }
  let insertStates :=
    (docs.foldl
      (fun (acc : List (String × Post) × List PostsManager) d =>
        let posts := loadDoc acc.1 d
        (posts, acc.2 ++ [{ s3 with posts := posts }]))
      ([], [])).2
  let posts := loadPosts docs
  let s5 : PostsManager := { s3 with posts := posts, tags := build_tag_index posts }
  let s6 : PostsManager :=
    if build_index then { s5 with search_index := some (build_search_index posts) } else s5
  [m, s1, s2, s3] ++ insertStates ++ [s5, s6]

/-- Whether `load_posts` could store anything for a document: a document whose
parse succeeds with `published == false` is skipped by the
`if not metadata.published: continue` line (parse failures are also skipped,
but they are kept here because this predicate isolates exactly the
unpublished documents). -/
def docKeep (d : SourceDoc) : Bool :=
  match d.parsed with
  | some (md, _) => md.published
  | none => true

/-! ### Ordering (PostsManager.order_by) and derived queries -/

/-- Publish-date order (`sorted(posts, key=lambda x: x.metadata.date)`). -/
def dateLe (x y : Post) : Prop := x.metadata.date ≤ y.metadata.date

/-- Publish-date descending comparison: Python's stable
`sorted(..., reverse=True)` keeps the first-seen element first among equal
keys, which is insertion sort under the reflexive `≥` comparison. -/
def dateGe (x y : Post) : Prop := y.metadata.date ≤ x.metadata.date

/-- Last-modified order. -/
def modifiedLe (x y : Post) : Prop := x.metadata.last_modified ≤ y.metadata.last_modified

/-- Last-modified descending comparison. -/
def modifiedGe (x y : Post) : Prop := y.metadata.last_modified ≤ x.metadata.last_modified

instance : DecidableRel dateLe :=
  fun a b => inferInstanceAs (Decidable (a.metadata.date ≤ b.metadata.date))

instance : DecidableRel dateGe :=
  fun a b => inferInstanceAs (Decidable (b.metadata.date ≤ a.metadata.date))

instance : DecidableRel modifiedLe :=
  fun a b => inferInstanceAs (Decidable (a.metadata.last_modified ≤ b.metadata.last_modified))

instance : DecidableRel modifiedGe :=
  fun a b => inferInstanceAs (Decidable (b.metadata.last_modified ≤ a.metadata.last_modified))

instance : IsTotal Post dateLe := ⟨fun _ _ => Nat.le_total _ _⟩

instance : IsTrans Post dateLe := ⟨fun _ _ _ h1 h2 => Nat.le_trans h1 h2⟩

instance : IsTotal Post dateGe := ⟨fun _ _ => Nat.le_total _ _⟩

instance : IsTrans Post dateGe := ⟨fun _ _ _ h1 h2 => Nat.le_trans h2 h1⟩

instance : IsTotal Post modifiedGe := ⟨fun _ _ => Nat.le_total _ _⟩

instance : IsTrans Post modifiedGe := ⟨fun _ _ _ h1 h2 => Nat.le_trans h2 h1⟩

/-- Strict publish-date descending order, used to compare the two date sorts
on date-distinct inputs. -/
def dateGT (x y : Post) : Prop := y.metadata.date < x.metadata.date

instance : IsAntisymm Post dateGT :=
  ⟨fun _ _ h1 h2 => absurd h2 (Nat.lt_asymm h1)⟩

/-- `PostsManager.order_by`: a stable sort on the selected date field;
any other key raises `ValueError(f"Invalid key: {key}")`. -/
def order_by (posts : List Post) (key : String) : Except String (List Post) :=
  if key = "date" then .ok (List.insertionSort dateLe posts)
  else if key = "date_desc" then .ok (List.insertionSort dateGe posts)
  else if key = "modified" then .ok (List.insertionSort modifiedLe posts)
  else if key = "modified_desc" then .ok (List.insertionSort modifiedGe posts)
  else .error ("Invalid key: " ++ key)

/-- `PostsManager.recent_posts`: all posts ordered by `modified_desc`,
truncated to `n`. -/
def PostsManager.recent_posts (m : PostsManager) (n : Nat := 5) : List Post :=
  match order_by (m.posts.map Prod.snd) "modified_desc" with
  | .ok l => l.take n
  | .error _ => []

/-- `PostsManager.get_posts_by_tag`: posts one of whose lower-cased tags
equals the lower-cased query tag, optionally truncated. -/
def PostsManager.get_posts_by_tag (m : PostsManager) (tag : String)
    (limit : Option Nat := none) : List Post :=
  let results := (m.posts.map Prod.snd).filter
    (fun post => (post.metadata.tags.map lowerStr).contains (lowerStr tag))
  match limit with
  | some n => results.take n
  | none => results

/-! ### Search (PostsManager.search) -/

/-- The fullmatch WHERE clause:
`slug LIKE ? OR title LIKE ? OR tags LIKE ? OR keywords LIKE ?`. -/
def rowMatchesFullmatch (kw : String) (r : IndexRow) : Bool :=
  likeStr (likePattern kw) r.slug || likeStr (likePattern kw) r.title ||
    likeStr (likePattern kw) r.tags || likeStr (likePattern kw) r.keywords

/-- The per-token jieba WHERE clause:
`title LIKE ? OR tags LIKE ? OR content LIKE ? OR keywords LIKE ?`. -/
def rowMatchesJieba (kw : String) (r : IndexRow) : Bool :=
  likeStr (likePattern kw) r.title || likeStr (likePattern kw) r.tags ||
    likeStr (likePattern kw) r.content || likeStr (likePattern kw) r.keywords

/-- How many of the four fields queried by the jieba branch a token matches
(used to state the per-field-counting claim). -/
def fieldMatchCountJieba (kw : String) (r : IndexRow) : Nat :=
  (if likeStr (likePattern kw) r.title then 1 else 0) +
    (if likeStr (likePattern kw) r.tags then 1 else 0) +
    (if likeStr (likePattern kw) r.content then 1 else 0) +
    (if likeStr (likePattern kw) r.keywords then 1 else 0)

/-- The hit dict of the jieba branch: for every token, one SELECT returns each
matching row once (the four LIKEs are OR-ed in a single WHERE), and
`hits[slug] = hits.get(slug, 0) + 1` is applied per returned row. -/
def jiebaHits (idx : List IndexRow) (tokens : List String) : List (String × Nat) :=
  tokens.foldl
    (fun hits kw => (idx.filter (fun r => rowMatchesJieba kw r)).foldl
      (fun hits r => bumpCount hits r.slug) hits)
    []

/-- Hit count of a slug in the hit dict (`hits[slug]`, 0 if absent). -/
def getHits (hits : List (String × Nat)) (slug : String) : Nat := getCount hits slug

/-- The jieba result comparison `key=lambda slug: hits[slug], reverse=True`. -/
def hitGe (hits : List (String × Nat)) (a b : String) : Prop :=
  getHits hits b ≤ getHits hits a

instance (hits : List (String × Nat)) : DecidableRel (hitGe hits) :=
  fun a b => inferInstanceAs (Decidable (getHits hits b ≤ getHits hits a))

/-- `PostsManager.search`. Raises (`Except.error`) when the index was never
built. The jieba tokenizer is external, passed as `tokenize` (the code calls
`jieba_fast.lcut` on the lower-cased query). The final slug→post lookups
(`self.posts[row[0]]`) are modelled with `filterMap dlookup`; every slug in
the index comes from the posts dict, so no lookup can fail. -/
def PostsManager.search (m : PostsManager) (tokenize : String → List String)
    (keyword : String) : Except String (List Post) :=
  match m.search_index with
  | none => .error "Search index not built."
  | some idx =>
    match m.search_method with
    | .fullmatch =>
      let kw := lowerStr keyword
      let rows := idx.filter (fun r => rowMatchesFullmatch kw r)
      .ok (rows.filterMap (fun r => dlookup m.posts r.slug))
    | .jieba =>
      let tokens := tokenize (lowerStr keyword)
      let hits := jiebaHits idx tokens
      let sortedSlugs := List.insertionSort (hitGe hits) (hits.map Prod.fst)
      .ok (sortedSlugs.filterMap (fun slug => dlookup m.posts slug))

/-! ### RSS generation (RSSProvider.generate_rss) -/

/-- SiteSettings (utils.py), restricted to the fields `generate_rss` reads. -/
structure SiteSettings where
  title : String
  description : String
  keywords : String
  site_url : Option String
  deriving DecidableEq

/-- CopyrightSettings (utils.py). -/
structure CopyrightSettings where
  name : String
  refer : String
  deriving DecidableEq

/-- Config (utils.py), restricted to the fields `generate_rss` reads. -/
structure Config where
  site_settings : SiteSettings
  site_language : String
  copyright : Option CopyrightSettings
  deriving DecidableEq

/-- markupsafe `escape` of one character: the five XML/HTML-reserved
characters become entities (`&amp;` `&lt;` `&gt;` `&#39;` `&#34;`), everything
else is kept. (The apostrophe and double quote are compared by code point.) -/
def escapeChar (c : Char) : List Char :=
  if c = '&' then ['&', 'a', 'm', 'p', ';']
  else if c = '<' then ['&', 'l', 't', ';']
  else if c = '>' then ['&', 'g', 't', ';']
  else if c.toNat = 39 then ['&', '#', '3', '9', ';']
  else if c.toNat = 34 then ['&', '#', '3', '4', ';']
  else [c]

/-- markupsafe `escape` on a string. -/
def escapeStr (s : String) : String := String.mk (s.toList.map escapeChar).flatten

/-- The literal block the body is embedded in:
`f"<![CDATA[{post.content}]]>"` with the content inserted verbatim. -/
def cdataBlock (content : String) : String := "<![CDATA[" ++ content ++ "]]>"

/-- The `<item>` lines generated for one post. -/
def rssItemParts (cfg : Config) (site_url : String) (fmtDate : Date → String)
    (is_static : Bool) (post : Post) : List String :=
  let post_url := site_url ++ "/post/" ++ post.slug ++ (if is_static then ".html" else "")
  ["    <item>",
    "      <title>" ++ escapeStr post.metadata.title ++ "</title>",
    "      <link>" ++ post_url ++ "</link>",
    "      <description>" ++ escapeStr post.metadata.description ++ "</description>",
    "      <pubDate>" ++ fmtDate post.metadata.date ++ "</pubDate>",
    "      <guid>" ++ escapeStr post_url ++ "</guid>",
    "      <author>" ++ escapeStr post.metadata.author ++ "</author>",
    "      <content:encoded xml:lang=\"" ++ escapeStr cfg.site_language ++ "\">"
      ++ cdataBlock post.content ++ "</content:encoded>"]
  ++ post.metadata.tags.map (fun tag => "      <category>" ++ escapeStr tag ++ "</category>")
  ++ ["    </item>"]

/-- `RSSProvider.generate_rss`. The RFC-822 date rendering of
`_format_rfc822_date` delegates to the external `strftime`, so it is a
parameter `fmtDate`; `get_amiablog_version()` reads pyproject.toml, so the
version string and today's date are parameters too. -/
def generate_rss (cfg : Config) (m : PostsManager) (fmtDate : Date → String)
    (version : String) (today : Date) (limit : Option Nat) (is_static : Bool) : String :=
  let site_url :=
    match cfg.site_settings.site_url with
    | none => "https://example.com"
    | some u => rstripSlash u
  let posts :=
    match order_by (m.posts.map Prod.snd) "modified_desc" with
    | .ok l => l
    | .error _ => []
  let posts :=
    match limit with
    | some n => posts.take n
    | none => posts
  let channel_title := escapeStr cfg.site_settings.title
  let channel_description := escapeStr cfg.site_settings.description
  let channel_link := escapeStr site_url
  let header :=
    ["<?xml version=\"1.0\" encoding=\"UTF-8\"?>",
      "<rss version=\"2.0\" xmlns:atom=\"http://www.w3.org/2005/Atom\" xmlns:content=\"http://purl.org/rss/1.0/modules/content/\">",
      "  <channel>",
      "    <title>" ++ channel_title ++ "</title>",
      "    <description>" ++ channel_description ++ "</description>",
      "    <link>" ++ channel_link ++ "</link>",
      "    <lastBuildDate>" ++ fmtDate today ++ "</lastBuildDate>",
      "    <generator>AmiaBlog " ++ version ++ "</generator>",
      "    <atom:link href=\"" ++ channel_link ++ "/feed\" rel=\"self\" type=\"application/rss+xml\" />",
      "    <language>" ++ escapeStr cfg.site_language ++ "</language>"]
    ++ (match cfg.copyright with
        | some cp =>
          ["    <copyright>" ++ escapeStr cp.name ++ " " ++ escapeStr cp.refer ++ "</copyright>"]
        | none => [])
  let items := (posts.map (fun p => rssItemParts cfg site_url fmtDate is_static p)).flatten
  joinLines (header ++ items ++ ["  </channel>", "</rss>"])

/-- The character data before the first `"]]>"`, as an XML parser reading a
CDATA section does: `none` when no `"]]>"` terminator follows. -/
def takeUntilMarker (marker : List Char) : List Char → Option (List Char)
  | [] => none
  | c :: rest =>
    if marker.isPrefixOf (c :: rest) then some []
    else (takeUntilMarker marker rest).map (fun l => c :: l)

/-- Drops everything up to and including the first occurrence of `marker`. -/
def dropThroughMarker (marker : List Char) : List Char → Option (List Char)
  | [] => none
  | c :: rest =>
    if marker.isPrefixOf (c :: rest) then some ((c :: rest).drop marker.length)
    else dropThroughMarker marker rest

/-- What an XML parser reads as the character data of the first CDATA section
of a document: the text between the first `"<![CDATA["` and the next `"]]>"`. -/
def extractFirstCData (doc : String) : Option String :=
  match dropThroughMarker "<![CDATA[".toList doc.toList with
  | none => none
  | some rest => (takeUntilMarker "]]>".toList rest).map (fun cs => String.mk cs)

/-! ### Concrete fixtures used by the closed example theorems -/

/-- Fixture metadata: a published post titled "amia". -/
def metaC1A : PostMetadata :=
  { title := "amia", date := 1, last_modified := 1, tags := [], description := "d",
    published := true, author := "au", keywords := [] }

/-- Identical metadata except that "amia" is additionally a search keyword. -/
def metaC1B : PostMetadata := { metaC1A with keywords := ["amia"] }

/-- Two source documents: the token "amia" matches one field of the first
post's index row and two fields of the second post's index row. -/
def docsC1 : List SourceDoc :=
  [{ filename := "a.md", parsed := some (metaC1A, "bodyA") },
    { filename := "b.md", parsed := some (metaC1B, "bodyB") }]

/-- A jieba-strategy store loaded from `docsC1`. -/
def mgrC1 : PostsManager := PostsManager.init docsC1 .jieba true

/-- The stored post of `a.md`. -/
def postC1A : Post := { metadata := metaC1A, content := "bodyA", slug := "a" }

/-- The stored post of `b.md`. -/
def postC1B : Post := { metadata := metaC1B, content := "bodyB", slug := "b" }

/-- The index row of `a.md` (token "amia" matches the title only). -/
def rowC1A : IndexRow :=
  { slug := "a", title := "amia", tags := "", content := "bodya", keywords := "" }

/-- The index row of `b.md` (token "amia" matches title and keywords). -/
def rowC1B : IndexRow :=
  { slug := "b", title := "amia", tags := "", content := "bodyb", keywords := "amia" }

/-- A tokenizer that returns the query as a single token (what jieba does on
a single ASCII word). -/
def tokSelf : String → List String := fun s => [s]

/-- Fixture metadata for the reload-trace example. -/
def metaC3 : PostMetadata :=
  { title := "t", date := 1, last_modified := 1, tags := ["x"], description := "d",
    published := true, author := "au", keywords := [] }

/-- The post stored before the reload. -/
def postC3 : Post := { metadata := metaC3, content := "c", slug := "a" }

/-- A fully loaded store holding one post and one tag. -/
def mgrC3old : PostsManager :=
  { posts := [("a", postC3)], tags := [("x", 1)],
    search_index := some (build_search_index [("a", postC3)]),
    search_method := .fullmatch }

/-- The source seen by the reload: a different single document. -/
def docsC3 : List SourceDoc :=
  [{ filename := "b.md", parsed := some ({ metaC3 with title := "u" }, "c2") }]

/-- The state right after `self.posts.clear()`: the posts dict is empty but
the tag dict still holds the old tags. -/
def mixedC3 : PostsManager := { mgrC3old with posts := [] }

/-- A published and an unpublished source document. -/
def docsC4 : List SourceDoc :=
  [{ filename := "a.md", parsed := some (metaC1A, "bodyA") },
    { filename := "b.md",
      parsed := some ({ metaC1A with title := "hidden", published := false }, "bodyB") }]

/-- The post that `docsC4` loads. -/
def postC4A : Post := { metadata := metaC1A, content := "bodyA", slug := "a" }

/-- A source document whose post lists the tag "x" twice. -/
def docsC5 : List SourceDoc :=
  [{ filename := "a.md",
      parsed := some ({ metaC3 with tags := ["x", "x"] }, "bodyA") }]

/-- A config fixture for RSS generation. -/
def cfgC6 : Config :=
  { site_settings :=
      { title := "t", description := "d", keywords := "k", site_url := some "https://e.x/" }
    site_language := "en"
    copyright := none }

/-- A source document whose body contains the CDATA terminator. -/
def docsC6 : List SourceDoc :=
  [{ filename := "a.md", parsed := some (metaC1A, "a]]>b") }]

/-- The store whose single post body contains the CDATA terminator. -/
def mgrC6 : PostsManager := PostsManager.init docsC6 .fullmatch true

/-- A date formatter standing for `_format_rfc822_date` in the closed
examples (its real output comes from the external `strftime`). -/
def fmtDateFix : Date → String := fun _ => "Mon, 01 Jan 2024 12:00:00 GMT"

/-- Two posts with distinct publish dates for the ordering witness. -/
def postsC7 : List Post :=
  [{ metadata := { metaC1A with date := 2 }, content := "p", slug := "p" },
    { metadata := { metaC1A with date := 1 }, content := "q", slug := "q" }]

/-- A store whose search index was never built (`build_search_index=False`). -/
def mgrC8none : PostsManager := PostsManager.init docsC1 .fullmatch false

/-- A fullmatch store loaded from `docsC1` with its index built. -/
def mgrC8built : PostsManager := PostsManager.init docsC1 .fullmatch true

end AmiaBlog

namespace AmiaBlog

/-! ### Helper lemmas -/

/-- The behaviour of the `parse_post` line loop once the separator has been
seen: every remaining `"---"` line is dropped, everything else is content. -/
theorem splitPostLines_true (ls : List String) :
    splitPostLines true ls = ([], ls.filter (fun l => l != "---")) := by
  induction ls with
  | nil => rfl
  | cons l rest ih =>
    by_cases h : l = "---"
    · simp [splitPostLines, h, ih]
    · simp [splitPostLines, h, ih]

theorem splitPostLines_split (metaLines bodyLines : List String)
    (h : "---" ∉ metaLines) :
    splitPostLines false (metaLines ++ "---" :: bodyLines)
      = (metaLines, bodyLines.filter (fun l => l != "---")) := by
  induction metaLines with
  | nil => simpa [splitPostLines] using splitPostLines_true bodyLines
  | cons l rest ih =>
    have hl : l ≠ "---" := fun e => h (e ▸ List.mem_cons_self l rest)
    have hrest : "---" ∉ rest := fun e => h (List.mem_cons_of_mem l e)
    simp [splitPostLines, hl, ih hrest]

/-- Bumping a key increments its stored count by one. -/
theorem getCount_bumpCount_self (m : List (String × Nat)) (k : String) :
    getCount (bumpCount m k) k = getCount m k + 1 := by
  induction m with
  | nil => simp [bumpCount, getCount, dlookup]
  | cons kv rest ih =>
    obtain ⟨k1, v1⟩ := kv
    by_cases h : k1 = k
    · subst h
      simp [bumpCount, getCount, dlookup]
    · simp [bumpCount, getCount, dlookup, h] at ih ⊢
      exact ih

/-- Bumping one key leaves every other key's count unchanged. -/
theorem getCount_bumpCount_other (m : List (String × Nat)) (k2 k : String)
    (h : k2 ≠ k) : getCount (bumpCount m k2) k = getCount m k := by
  induction m with
  | nil => simp [bumpCount, getCount, dlookup, h]
  | cons kv rest ih =>
    obtain ⟨k1, v1⟩ := kv
    by_cases h1 : k1 = k2
    · subst h1
      simp [bumpCount, getCount, dlookup, h]
    · by_cases h2 : k1 = k
      · subst h2
        simp [bumpCount, getCount, dlookup, h1]
      · simp [bumpCount, getCount, dlookup, h1, h2] at ih ⊢
        exact ih

/-- Folding the counter over a tag list adds the number of occurrences. -/
theorem getCount_foldl_tags (tags : List String) (acc : List (String × Nat)) (t : String) :
    getCount (tags.foldl bumpCount acc) t = getCount acc t + tags.count t := by
  induction tags generalizing acc with
  | nil => simp
  | cons tg rest ih =>
    rw [List.foldl_cons, ih]
    by_cases h : tg = t
    · subst h
      rw [getCount_bumpCount_self]
      simp [List.count_cons]
      omega
    · rw [getCount_bumpCount_other acc tg t h]
      simp [List.count_cons, h]

/-- The tag index built by `_build_tag_index` stores, for each name, the total
number of occurrences across the posts' tag lists. -/
theorem build_tag_index_count (posts : List (String × Post)) (t : String) :
    getCount (build_tag_index posts) t
      = (posts.map (fun kv => kv.2.metadata.tags.count t)).sum := by
  unfold build_tag_index
  have main : ∀ (ps : List (String × Post)) (acc : List (String × Nat)),
      getCount (ps.foldl (fun a kv => kv.2.metadata.tags.foldl bumpCount a) acc) t
        = getCount acc t + (ps.map (fun kv => kv.2.metadata.tags.count t)).sum := by
    intro ps
    induction ps with
    | nil => intro acc; simp
    | cons kv rest ih =>
      intro acc
      rw [List.foldl_cons, ih, getCount_foldl_tags]
      simp
      omega
  have h0 : getCount [] t = 0 := rfl
  rw [main posts [], h0, Nat.zero_add]

/-- A successful dict lookup comes from an entry of the list. -/
theorem dlookup_mem {α : Type} (l : List (String × α)) (k : String) (v : α)
    (h : dlookup l k = some v) : (k, v) ∈ l := by
  induction l with
  | nil => simp [dlookup] at h
  | cons kv rest ih =>
    obtain ⟨k1, v1⟩ := kv
    by_cases h1 : k1 = k
    · subst h1
      simp [dlookup] at h
      simp [h]
    · simp [dlookup, h1] at h
      exact List.mem_cons_of_mem _ (ih h)

/-- The descending date sort equals the reverse of the ascending date sort
when all publish dates are pairwise distinct. -/
theorem insertionSort_dateGe_eq_reverse (posts : List Post)
    (hd : posts.Pairwise (fun a b => a.metadata.date ≠ b.metadata.date)) :
    List.insertionSort dateGe posts = (List.insertionSort dateLe posts).reverse := by
  have p1 : (List.insertionSort dateGe posts).Perm posts := List.perm_insertionSort _ _
  have p2 : ((List.insertionSort dateLe posts).reverse).Perm posts :=
    (List.reverse_perm _).trans (List.perm_insertionSort _ _)
  have hperm : (List.insertionSort dateGe posts).Perm
      ((List.insertionSort dateLe posts).reverse) := p1.trans p2.symm
  have hd1 : (List.insertionSort dateGe posts).Pairwise
      (fun a b => a.metadata.date ≠ b.metadata.date) :=
    (List.Perm.pairwise_iff (fun h => Ne.symm h) p1).2 hd
  have hd2 : ((List.insertionSort dateLe posts).reverse).Pairwise
      (fun a b => a.metadata.date ≠ b.metadata.date) :=
    (List.Perm.pairwise_iff (fun h => Ne.symm h) p2).2 hd
  have hs1 : (List.insertionSort dateGe posts).Pairwise dateGe :=
    List.sorted_insertionSort dateGe posts
  have hs2 : (List.insertionSort dateLe posts).Pairwise dateLe :=
    List.sorted_insertionSort dateLe posts
  have hs2r : ((List.insertionSort dateLe posts).reverse).Pairwise dateGe :=
    List.pairwise_reverse.2 (hs2.imp (fun h => h))
  have hst1 : (List.insertionSort dateGe posts).Pairwise dateGT :=
    (hs1.and hd1).imp (fun h => Nat.lt_of_le_of_ne h.1 (Ne.symm h.2))
  have hst2 : ((List.insertionSort dateLe posts).reverse).Pairwise dateGT :=
    (hs2r.and hd2).imp (fun h => Nat.lt_of_le_of_ne h.1 (Ne.symm h.2))
  exact List.eq_of_perm_of_sorted hperm hst1 hst2

/-- Membership after a dict insert: the new pair or an old entry. -/
theorem mem_dinsert {α : Type} (l : List (String × α)) (k : String) (v : α) :
    ∀ kv ∈ dinsert l k v, kv = (k, v) ∨ kv ∈ l := by
  induction l with
  | nil =>
    intro kv hkv
    simp [dinsert] at hkv
    exact Or.inl hkv
  | cons kv1 rest ih =>
    obtain ⟨k1, v1⟩ := kv1
    intro kv hkv
    by_cases h : k1 = k
    · rw [show dinsert ((k1, v1) :: rest) k v = (k, v) :: rest from by simp [dinsert, h]] at hkv
      rcases List.mem_cons.1 hkv with h1 | h2
      · exact Or.inl h1
      · exact Or.inr (List.mem_cons_of_mem _ h2)
    · rw [show dinsert ((k1, v1) :: rest) k v = (k1, v1) :: dinsert rest k v from by
        simp [dinsert, h]] at hkv
      rcases List.mem_cons.1 hkv with h1 | h2
      · exact Or.inr (h1 ▸ List.mem_cons_self _ _)
      · rcases ih kv h2 with ha | hb
        · exact Or.inl ha
        · exact Or.inr (List.mem_cons_of_mem _ hb)

/-- A key present after a dict insert is the inserted key or an old key. -/
theorem mem_keys_dinsert {α : Type} (l : List (String × α)) (k : String) (v : α)
    (x : String) (hx : x ∈ (dinsert l k v).map Prod.fst) :
    x = k ∨ x ∈ l.map Prod.fst := by
  rcases List.mem_map.1 hx with ⟨kv, hkv, hfst⟩
  rcases mem_dinsert l k v kv hkv with h1 | h2
  · exact Or.inl (by rw [← hfst, h1])
  · exact Or.inr (List.mem_map.2 ⟨kv, h2, hfst⟩)

/-- Dict insert preserves distinctness of the keys. -/
theorem dinsert_keys_nodup {α : Type} (l : List (String × α)) (k : String) (v : α)
    (h : (l.map Prod.fst).Nodup) : ((dinsert l k v).map Prod.fst).Nodup := by
  induction l with
  | nil => simp [dinsert]
  | cons kv1 rest ih =>
    obtain ⟨k1, v1⟩ := kv1
    rw [List.map_cons, List.nodup_cons] at h
    obtain ⟨hk1, hrest⟩ := h
    by_cases hkk : k1 = k
    · subst hkk
      rw [show dinsert ((k1, v1) :: rest) k1 v = (k1, v) :: rest from by simp [dinsert]]
      rw [List.map_cons, List.nodup_cons]
      exact ⟨hk1, hrest⟩
    · rw [show dinsert ((k1, v1) :: rest) k v = (k1, v1) :: dinsert rest k v from by
        simp [dinsert, hkk]]
      rw [List.map_cons, List.nodup_cons]
      refine ⟨?_, ih hrest⟩
      intro hx
      rcases mem_keys_dinsert rest k v k1 hx with h1 | h2
      · exact hkk h1
      · exact hk1 h2

/-- With distinct keys, looking up the key of an entry returns its value. -/
theorem dlookup_eq_of_mem {α : Type} (l : List (String × α)) (k : String) (v : α)
    (hnd : (l.map Prod.fst).Nodup) (hm : (k, v) ∈ l) : dlookup l k = some v := by
  induction l with
  | nil => cases hm
  | cons kv1 rest ih =>
    obtain ⟨k1, v1⟩ := kv1
    rw [List.map_cons, List.nodup_cons] at hnd
    obtain ⟨hk1, hrest⟩ := hnd
    rcases List.mem_cons.1 hm with h1 | h2
    · have e1 : k = k1 := congrArg Prod.fst h1
      have e2 : v = v1 := congrArg Prod.snd h1
      subst e1
      subst e2
      simp [dlookup]
    · have hkk : k1 ≠ k := by
        intro e
        subst e
        exact hk1 (List.mem_map.2 ⟨(k1, v), h2, rfl⟩)
      simp [dlookup, hkk]
      exact ih hrest h2

/-- One load-loop step preserves: every stored post is published, its slug is
its key, and the keys are distinct. -/
theorem loadDoc_preserves (acc : List (String × Post)) (d : SourceDoc)
    (h1 : ∀ kv ∈ acc, kv.2.slug = kv.1 ∧ kv.2.metadata.published = true)
    (h2 : (acc.map Prod.fst).Nodup) :
    (∀ kv ∈ loadDoc acc d, kv.2.slug = kv.1 ∧ kv.2.metadata.published = true)
      ∧ ((loadDoc acc d).map Prod.fst).Nodup := by
  by_cases he : strEndsWith d.filename ".md" = true
  · rcases hd : d.parsed with _ | ⟨md, content⟩
    · rw [show loadDoc acc d = acc from by simp [loadDoc, he, hd]]
      exact ⟨h1, h2⟩
    · by_cases hp : md.published = true
      · rw [show loadDoc acc d = dinsert acc (slugOf d.filename)
            { metadata := md, content := content, slug := slugOf d.filename } from by
          simp [loadDoc, he, hd, hp]]
        constructor
        · intro kv hkv
          rcases mem_dinsert _ _ _ kv hkv with h3 | h4
          · rw [h3]
            exact ⟨rfl, hp⟩
          · exact h1 kv h4
        · exact dinsert_keys_nodup _ _ _ h2
      · rw [show loadDoc acc d = acc from by simp [loadDoc, he, hd, hp]]
        exact ⟨h1, h2⟩
  · rw [show loadDoc acc d = acc from by simp [loadDoc, he]]
    exact ⟨h1, h2⟩

/-- Every post `load_posts` stores is published, carries its key as its slug,
and the slugs (dict keys) are pairwise distinct. -/
theorem loadPosts_good (docs : List SourceDoc) :
    (∀ kv ∈ loadPosts docs, kv.2.slug = kv.1 ∧ kv.2.metadata.published = true)
      ∧ ((loadPosts docs).map Prod.fst).Nodup := by
  have main : ∀ (ds : List SourceDoc) (acc : List (String × Post)),
      (∀ kv ∈ acc, kv.2.slug = kv.1 ∧ kv.2.metadata.published = true) →
      (acc.map Prod.fst).Nodup →
      (∀ kv ∈ ds.foldl loadDoc acc, kv.2.slug = kv.1 ∧ kv.2.metadata.published = true)
        ∧ ((ds.foldl loadDoc acc).map Prod.fst).Nodup := by
    intro ds
    induction ds with
    | nil => intro acc ha1 ha2; exact ⟨ha1, ha2⟩
    | cons d rest ih =>
      intro acc ha1 ha2
      rw [List.foldl_cons]
      obtain ⟨g1, g2⟩ := loadDoc_preserves acc d ha1 ha2
      exact ih _ g1 g2
  exact main docs [] (by simp) (by simp)

/-- A document skipped by the `published` check changes nothing. -/
theorem loadDoc_skip (acc : List (String × Post)) (d : SourceDoc)
    (h : docKeep d = false) : loadDoc acc d = acc := by
  rcases hd : d.parsed with _ | ⟨md, content⟩
  · simp [docKeep, hd] at h
  · have hp : md.published = false := by simpa [docKeep, hd] using h
    by_cases he : strEndsWith d.filename ".md" = true <;> simp [loadDoc, he, hd, hp]

/-- Removing the unpublished documents from the source does not change the
loaded posts dict. -/
theorem loadPosts_filter (docs : List SourceDoc) :
    loadPosts docs = loadPosts (docs.filter docKeep) := by
  have main : ∀ (ds : List SourceDoc) (acc : List (String × Post)),
      ds.foldl loadDoc acc = (ds.filter docKeep).foldl loadDoc acc := by
    intro ds
    induction ds with
    | nil => intro acc; rfl
    | cons d rest ih =>
      intro acc
      by_cases h : docKeep d = true
      · simp [List.filter_cons, h, ih]
      · have h0 : docKeep d = false := by simpa using h
        simp [List.filter_cons, h0, loadDoc_skip acc d h0, ih]
  exact main docs []

/-- The two-percent pattern `"%%"` matches every string. -/
theorem likeMatch_pp (s : List Char) : likeMatch ['%', '%'] s = true := by
  have h0 : likeMatch ['%'] ([] : List Char) = true := by decide
  have hmem : ([] : List Char) ∈ s.tails := (List.mem_tails _ _).2 List.nil_suffix
  have he : likeMatch ['%', '%'] s = s.tails.any (fun t => likeMatch ['%'] t) := by
    simp [likeMatch]
  rw [he]
  exact List.any_eq_true.2 ⟨[], hmem, h0⟩

/-- A filterMap whose function succeeds on every element is a map. -/
theorem filterMap_eq_map_of_some {α β : Type} (l : List α) (f : α → Option β)
    (g : α → β) (h : ∀ x ∈ l, f x = some (g x)) : l.filterMap f = l.map g := by
  induction l with
  | nil => rfl
  | cons x rest ih =>
    rw [List.filterMap_cons, h x (List.mem_cons_self x rest), List.map_cons,
      ih (fun y hy => h y (List.mem_cons_of_mem x hy))]

/-- `recent_posts` is the `modified_desc` sort truncated to `n`. -/
theorem recent_posts_eq (m : PostsManager) (n : Nat) :
    m.recent_posts n = (List.insertionSort modifiedGe (m.posts.map Prod.snd)).take n := by
  have e : order_by (m.posts.map Prod.snd) "modified_desc"
      = .ok (List.insertionSort modifiedGe (m.posts.map Prod.snd)) := by
    simp [order_by]
  simp [PostsManager.recent_posts, e]

/-- Search results always come from the posts dict, hence are published. -/
theorem search_results_published (docs : List SourceDoc) (method : SearchMethod)
    (b : Bool) (tokenize : String → List String) (kw : String) (res : List Post)
    (h : (PostsManager.init docs method b).search tokenize kw = .ok res) :
    ∀ p ∈ res, p.metadata.published = true := by
  obtain ⟨hgood, _⟩ := loadPosts_good docs
  intro p hp
  cases b with
  | false =>
    have e : (PostsManager.init docs method false).search tokenize kw
        = .error "Search index not built." := rfl
    rw [e] at h
    exact absurd h (by simp)
  | true =>
    cases method with
    | fullmatch =>
      have e : (PostsManager.init docs .fullmatch true).search tokenize kw
          = .ok (((build_search_index (loadPosts docs)).filter
              (fun r => rowMatchesFullmatch (lowerStr kw) r)).filterMap
              (fun r => dlookup (loadPosts docs) r.slug)) := rfl
      rw [e] at h
      injection h with h2
      rw [← h2] at hp
      rcases List.mem_filterMap.1 hp with ⟨r, _, hr⟩
      exact (hgood _ (dlookup_mem _ _ _ hr)).2
    | jieba =>
      have e : (PostsManager.init docs .jieba true).search tokenize kw
          = .ok ((List.insertionSort
              (hitGe (jiebaHits (build_search_index (loadPosts docs))
                (tokenize (lowerStr kw))))
              ((jiebaHits (build_search_index (loadPosts docs))
                (tokenize (lowerStr kw))).map Prod.fst)).filterMap
              (fun slug => dlookup (loadPosts docs) slug)) := rfl
      rw [e] at h
      injection h with h2
      rw [← h2] at hp
      rcases List.mem_filterMap.1 hp with ⟨slug, _, hr⟩
      exact (hgood _ (dlookup_mem _ _ _ hr)).2

/-- Folding the hit counter over a row list adds, for each slug, the number
of rows carrying that slug. -/
theorem getHits_foldl_rows (rows : List IndexRow) (hits : List (String × Nat))
    (s : String) :
    getHits (rows.foldl (fun h r => bumpCount h r.slug) hits) s
      = getHits hits s + (rows.filter (fun r => r.slug == s)).length := by
  induction rows generalizing hits with
  | nil => simp [getHits]
  | cons r rest ih =>
    rw [List.foldl_cons, ih]
    by_cases h : r.slug = s
    · unfold getHits
      rw [show bumpCount hits r.slug = bumpCount hits s from by rw [h]]
      rw [getCount_bumpCount_self]
      simp [List.filter_cons, h]
      omega
    · unfold getHits
      rw [getCount_bumpCount_other hits r.slug s h]
      simp [List.filter_cons, h]

/-- With pairwise distinct slugs, the rows of the index that both satisfy a
predicate and carry the slug of a member row number one if the predicate
holds of that row, zero otherwise. -/
theorem filter_matched_unique (idx : List IndexRow) (r : IndexRow) (hr : r ∈ idx)
    (hnd : (idx.map IndexRow.slug).Nodup) (p : IndexRow → Bool) :
    ((idx.filter p).filter (fun r2 => r2.slug == r.slug)).length
      = if p r then 1 else 0 := by
  induction idx with
  | nil => cases hr
  | cons a rest ih =>
    rw [List.map_cons, List.nodup_cons] at hnd
    obtain ⟨ha, hnd2⟩ := hnd
    rcases List.mem_cons.1 hr with he | hm
    · subst he
      have hrest : ((rest.filter p).filter (fun r2 => r2.slug == r.slug)).length = 0 := by
        rw [List.length_eq_zero, List.filter_eq_nil_iff]
        intro x hx
        have hx1 : x ∈ rest := (List.mem_filter.1 hx).1
        have hne : x.slug ≠ r.slug := by
          intro e
          exact ha (e ▸ List.mem_map.2 ⟨x, hx1, rfl⟩)
        simp [hne]
      by_cases hp : p r
      · simp [List.filter_cons, hp, List.length_eq_zero.1 hrest]
      · simp [List.filter_cons, hp, List.length_eq_zero.1 hrest]
    · have hane : a.slug ≠ r.slug := by
        intro e
        exact ha (e ▸ List.mem_map.2 ⟨r, hm, rfl⟩)
      by_cases hp : p a
      · simp only [List.filter_cons, hp, if_true, if_pos]
        rw [show (a.slug == r.slug) = false from by simp [hane], if_neg (by simp)]
        exact ih hm hnd2
      · simp only [List.filter_cons, hp, if_false, if_neg (by simp [hp] : ¬(p a = true))]
        exact ih hm hnd2

end AmiaBlog

namespace AmiaBlog

/-! ### Claim theorems for the jieba hit counting -/

/-- C1 (counterexample): in a concrete jieba store, the token `"amia"`
matches two fields (title and keywords) of the second post's index row and
only one field (title) of the first post's row, yet both posts receive hit
count 1 and the search returns them in index order — the two-field post is
ranked after, not above, the one-field post. -/
theorem C1_counterexample :
    mgrC1.search tokSelf "amia" = .ok [postC1A, postC1B]
      ∧ mgrC1.search_index = some [rowC1A, rowC1B]
      ∧ fieldMatchCountJieba "amia" rowC1A = 1
      ∧ fieldMatchCountJieba "amia" rowC1B = 2
      ∧ getHits (jiebaHits [rowC1A, rowC1B] ["amia"]) "a" = 1
      ∧ getHits (jiebaHits [rowC1A, rowC1B] ["amia"]) "b" = 1
      ∧ postC1A ≠ postC1B := by
  decide

/-- C1 (amended): under the jieba strategy, a post's hit count is the number
of query tokens that match at least one of its four queried fields — a token
matching several fields of the same post still contributes exactly one hit,
because the four LIKEs are OR-ed inside a single per-token SELECT that
returns each row at most once. -/
theorem C1_hits_per_token (idx : List IndexRow) (tokens : List String)
    (r : IndexRow) (hr : r ∈ idx) (hnd : (idx.map IndexRow.slug).Nodup) :
    getHits (jiebaHits idx tokens) r.slug
      = (tokens.filter (fun kw => rowMatchesJieba kw r)).length := by
  unfold jiebaHits
  have main : ∀ (ts : List String) (hits : List (String × Nat)),
      getHits (ts.foldl (fun h kw => (idx.filter (fun r2 => rowMatchesJieba kw r2)).foldl
          (fun h r2 => bumpCount h r2.slug) h) hits) r.slug
        = getHits hits r.slug + (ts.filter (fun kw => rowMatchesJieba kw r)).length := by
    intro ts
    induction ts with
    | nil => intro hits; simp
    | cons kw rest ih =>
      intro hits
      rw [List.foldl_cons, ih, getHits_foldl_rows,
        filter_matched_unique idx r hr hnd (fun r2 => rowMatchesJieba kw r2)]
      by_cases h : rowMatchesJieba kw r
      · simp [List.filter_cons, h]
        omega
      · simp [List.filter_cons, h]
  rw [main tokens []]
  simp [getHits, getCount, dlookup]

/-- C1 witness: the amended hit-count theorem evaluated on the concrete
two-row index where the token matches two fields of the second row. -/
theorem C1_hits_per_token_witness :
    getHits (jiebaHits [rowC1A, rowC1B] ["amia"]) rowC1B.slug
      = (["amia"].filter (fun kw => rowMatchesJieba kw rowC1B)).length :=
  C1_hits_per_token [rowC1A, rowC1B] ["amia"] rowC1B (by decide) (by decide)

end AmiaBlog

namespace AmiaBlog

/-! ### Escaping and CDATA lemmas for the feed generator -/

/-- The characters produced by escaping one character avoid the raw reserved
characters (angle brackets, apostrophe 39, double quote 34). -/
theorem mem_escapeChar_not_reserved (c x : Char) (hx : x ∈ escapeChar c) :
    x ≠ '<' ∧ x ≠ '>' ∧ x.toNat ≠ 39 ∧ x.toNat ≠ 34 := by
  unfold escapeChar at hx
  by_cases h1 : c = '&'
  · rw [if_pos h1] at hx
    fin_cases hx <;> decide
  · rw [if_neg h1] at hx
    by_cases h2 : c = '<'
    · rw [if_pos h2] at hx
      fin_cases hx <;> decide
    · rw [if_neg h2] at hx
      by_cases h3 : c = '>'
      · rw [if_pos h3] at hx
        fin_cases hx <;> decide
      · rw [if_neg h3] at hx
        by_cases h4 : c.toNat = 39
        · rw [if_pos h4] at hx
          fin_cases hx <;> decide
        · rw [if_neg h4] at hx
          by_cases h5 : c.toNat = 34
          · rw [if_pos h5] at hx
            fin_cases hx <;> decide
          · rw [if_neg h5] at hx
            have hxc : x = c := List.mem_singleton.1 hx
            subst hxc
            exact ⟨h2, h3, h4, h5⟩

/-- Escaped text contains no raw reserved character. -/
theorem escapeStr_no_reserved (s : String) :
    ∀ x ∈ (escapeStr s).toList, x ≠ '<' ∧ x ≠ '>' ∧ x.toNat ≠ 39 ∧ x.toNat ≠ 34 := by
  intro x hx
  have hx2 : x ∈ (s.toList.map escapeChar).flatten := hx
  rcases List.mem_flatten.1 hx2 with ⟨l, hl, hxl⟩
  rcases List.mem_map.1 hl with ⟨c, _, rfl⟩
  exact mem_escapeChar_not_reserved c x hxl

/-- A list is a Boolean prefix of itself followed by anything. -/
theorem isPrefixOf_append (l t : List Char) : l.isPrefixOf (l ++ t) = true := by
  induction l with
  | nil => simp [List.isPrefixOf]
  | cons c rest ih => simp [List.isPrefixOf, ih]

/-- Scanning for a nonempty marker at the very front succeeds and drops it. -/
theorem dropThroughMarker_at_front (c : Char) (m t : List Char) :
    dropThroughMarker (c :: m) ((c :: m) ++ t) = some t := by
  rw [List.cons_append]
  rw [show dropThroughMarker (c :: m) (c :: (m ++ t))
      = if (c :: m).isPrefixOf (c :: (m ++ t)) then
          some ((c :: (m ++ t)).drop (c :: m).length)
        else dropThroughMarker (c :: m) (m ++ t) from rfl]
  have hp : (c :: m).isPrefixOf (c :: (m ++ t)) = true := isPrefixOf_append (c :: m) t
  rw [if_pos hp]
  simp [List.drop_succ_cons, List.drop_left]

/-- If the CDATA terminator `"]]>"` does not occur in `cs`, scanning
`cs ++ "]]>"` finds the terminator exactly at the end and returns `cs` (the
terminator cannot overlap the boundary because no proper prefix of `"]]>"` is
also a suffix of it). -/
theorem takeUntilMarker_cdata (cs : List Char)
    (h : hasMarker [']', ']', '>'] cs = false) :
    takeUntilMarker [']', ']', '>'] (cs ++ [']', ']', '>']) = some cs := by
  induction cs with
  | nil => decide
  | cons c rest ih =>
    have h2 : (([']', ']', '>'] : List Char).isPrefixOf (c :: rest)
        || hasMarker [']', ']', '>'] rest) = false := h
    rw [Bool.or_eq_false_iff] at h2
    obtain ⟨hpre0, hrest⟩ := h2
    have hpre : ([']', ']', '>'] : List Char).isPrefixOf (c :: (rest ++ [']', ']', '>']))
        = false := by
      rcases rest with _ | ⟨c1, rest1⟩
      · simp [List.isPrefixOf]
      · rcases rest1 with _ | ⟨c2, rest2⟩
        · simp [List.isPrefixOf]
        · have he : ([']', ']', '>'] : List Char).isPrefixOf
              (c :: ((c1 :: c2 :: rest2) ++ [']', ']', '>']))
              = ([']', ']', '>'] : List Char).isPrefixOf (c :: c1 :: c2 :: rest2) := by
            simp [List.isPrefixOf]
          rw [he]
          exact hpre0
    rw [List.cons_append]
    rw [show takeUntilMarker [']', ']', '>'] (c :: (rest ++ [']', ']', '>']))
        = if ([']', ']', '>'] : List Char).isPrefixOf (c :: (rest ++ [']', ']', '>'])) then
            some []
          else (takeUntilMarker [']', ']', '>'] (rest ++ [']', ']', '>'])).map
            (fun l => c :: l) from rfl]
    rw [if_neg (by simp [hpre]), ih hrest]
    rfl

/-- Decoding the generated CDATA block recovers the body exactly when the
body does not contain the terminator. -/
theorem extractFirstCData_cdataBlock (content : String)
    (h : hasMarker [']', ']', '>'] content.toList = false) :
    extractFirstCData (cdataBlock content) = some content := by
  unfold extractFirstCData cdataBlock
  have hlist : (("<![CDATA[" ++ content) ++ "]]>").toList
      = "<![CDATA[".toList ++ (content.toList ++ [']', ']', '>']) := by
    show (("<![CDATA[" ++ content) ++ "]]>").data
        = "<![CDATA[".data ++ (content.data ++ "]]>".data)
    rw [String.data_append, String.data_append, List.append_assoc]
  rw [hlist]
  rw [show ("<![CDATA[".toList : List Char) = '<' :: "![CDATA[".toList from rfl]
  rw [dropThroughMarker_at_front '<' "![CDATA[".toList (content.toList ++ [']', ']', '>'])]
  show (takeUntilMarker "]]>".toList (content.toList ++ [']', ']', '>'])).map
      (fun cs => String.mk cs) = some content
  rw [show ("]]>".toList : List Char) = [']', ']', '>'] from rfl]
  rw [takeUntilMarker_cdata content.toList h]
  rfl

end AmiaBlog

namespace AmiaBlog

/-- C6 (counterexample): with the body `"a]]>b"`, the generated feed's first
CDATA section decodes to `"a"` — the terminator inside the body ends the
literal block early, so the feed does not embed such a body intact and the
claimed well-formedness for arbitrary bodies fails. -/
theorem C6_counterexample :
    extractFirstCData (generate_rss cfgC6 mgrC6 fmtDateFix "1.0" 0 none false) = some "a"
      ∧ mgrC6.posts.map Prod.snd = [{ metadata := metaC1A, content := "a]]>b", slug := "a" }]
      ∧ ("a" : String) ≠ "a]]>b" := by
  decide

/-- C6 (amended): every user-authored text field is run through the escaper,
whose output contains no raw reserved character, and the body is embedded
verbatim in a CDATA block that decodes back to the body exactly when the body
does not contain the terminator `"]]>"` — bodies containing `"]]>"` break the
block. -/
theorem C6_escaping (s content : String)
    (h : hasMarker [']', ']', '>'] content.toList = false) :
    (∀ x ∈ (escapeStr s).toList, x ≠ '<' ∧ x ≠ '>' ∧ x.toNat ≠ 39 ∧ x.toNat ≠ 34)
      ∧ extractFirstCData (cdataBlock content) = some content :=
  ⟨escapeStr_no_reserved s, extractFirstCData_cdataBlock content h⟩

/-- C6 witness: the amended theorem evaluated on a concrete field value and a
concrete body containing reserved characters but no terminator. -/
theorem C6_escaping_witness :
    (∀ x ∈ (escapeStr "a&b<c>").toList, x ≠ '<' ∧ x ≠ '>' ∧ x.toNat ≠ 39 ∧ x.toNat ≠ 34)
      ∧ extractFirstCData (cdataBlock "hello <b> & c") = some "hello <b> & c" :=
  C6_escaping "a&b<c>" "hello <b> & c" (by decide)

end AmiaBlog

namespace AmiaBlog

/-! ### Claim theorems -/

/-- C2 (counterexample): the document whose lines are
`["t: a", "---", "x", "---", "y"]` should, per the claim, parse to the body
`"x\n---\ny"` (every line after the first separator unchanged), but
`parse_post` drops the later `"---"` line and returns `"x\ny"`. -/
theorem C2_counterexample :
    parse_post "t: a\n---\nx\n---\ny" = (["t: a"], "x\ny")
      ∧ (parse_post "t: a\n---\nx\n---\ny").2 ≠ "x\n---\ny" := by
  decide

/-- C2 (amended): for a document whose lines are a metadata block (free of
`"---"`), a `"---"` separator, and body lines, `parse_post` returns the
metadata lines exactly and, as the body, the body lines joined back together
with every later line equal to `"---"` removed as well. -/
theorem C2_parse_body (doc : String) (metaLines bodyLines : List String)
    (hsplit : splitLinesStr doc = metaLines ++ "---" :: bodyLines)
    (hmeta : "---" ∉ metaLines) :
    parse_post doc = (metaLines, joinLines (bodyLines.filter (fun l => l != "---"))) := by
  unfold parse_post
  rw [hsplit, splitPostLines_split metaLines bodyLines hmeta]

/-- C2 witness: the amended parse theorem evaluated on a concrete document
with a later `"---"` line in its body. -/
theorem C2_parse_body_witness :
    parse_post "t: a\n---\nb1\n---\nb2"
      = (["t: a"], joinLines (["b1", "---", "b2"].filter (fun l => l != "---"))) :=
  C2_parse_body "t: a\n---\nb1\n---\nb2" ["t: a"] ["b1", "---", "b2"]
    (by decide) (by decide)

/-- C3 (counterexample): starting from a loaded store with one post and one
tag, the state observable right after `self.posts.clear()` during a reload of
`docsC3` has an empty post dict but the old tag dict — it is neither the old
snapshot nor the new one. -/
theorem C3_counterexample :
    mixedC3 ∈ loadTrace mgrC3old docsC3 true
      ∧ mixedC3 ≠ mgrC3old
      ∧ mixedC3 ≠ mgrC3old.load_posts docsC3 true := by
  decide

/-- C3 (amended): the in-place rebuild of `load_posts` starts from the old
state and ends in the complete new snapshot (posts, tag index and search
index all rebuilt from the new document set); consistency holds at the end of
the reload, not at the intermediate states. -/
theorem C3_trace_endpoints (m : PostsManager) (docs : List SourceDoc) (b : Bool) :
    (loadTrace m docs b).head? = some m
      ∧ (loadTrace m docs b).getLast? = some (m.load_posts docs b) := by
  constructor
  · rfl
  · unfold loadTrace PostsManager.load_posts
    rw [show ∀ (x y : PostsManager) (l1 l2 : List PostsManager),
          l1 ++ l2 ++ [x, y] = (l1 ++ l2 ++ [x]) ++ [y] from by simp,
        List.getLast?_concat]
    cases b <;> simp

/-- C5 (counterexample): a single post whose tag list is `["x", "x"]` yields a
stored count of 2 for `"x"`, while the number of loaded posts whose tag list
contains `"x"` is 1. -/
theorem C5_counterexample :
    getCount (PostsManager.init docsC5 .fullmatch true).tags "x" = 2
      ∧ ((loadPosts docsC5).filter
          (fun kv => kv.2.metadata.tags.contains "x")).length = 1
      ∧ (2 : Nat) ≠ 1 := by
  decide

/-- C5 (amended): after load, the count stored for a tag name equals the total
number of occurrences of that name across the loaded posts' tag lists — a post
whose tag list contains the name twice contributes two, not one. -/
theorem C5_tag_count (docs : List SourceDoc) (method : SearchMethod) (b : Bool)
    (t : String) :
    getCount (PostsManager.init docs method b).tags t
      = ((loadPosts docs).map (fun kv => kv.2.metadata.tags.count t)).sum := by
  have h : (PostsManager.init docs method b).tags = build_tag_index (loadPosts docs) := rfl
  rw [h, build_tag_index_count]

/-- C9: the fullmatch strategy interpolates the query into the LIKE pattern
unescaped, so wildcards act: the one-character query `"%"` returns every post
of the store, although `"%"` occurs literally in none of the indexed fields
(slug, title, joined tags, joined keywords) of either post. -/
theorem C9_wildcard_injection :
    mgrC8built.search tokSelf "%" = .ok [postC1A, postC1B]
      ∧ mgrC8built.search_index = some [rowC1A, rowC1B]
      ∧ (containsLit "%" rowC1A.slug = false ∧ containsLit "%" rowC1A.title = false
          ∧ containsLit "%" rowC1A.tags = false ∧ containsLit "%" rowC1A.keywords = false)
      ∧ (containsLit "%" rowC1B.slug = false ∧ containsLit "%" rowC1B.title = false
          ∧ containsLit "%" rowC1B.tags = false ∧ containsLit "%" rowC1B.keywords = false) := by
  decide

/-- C7: on a non-empty list of posts with pairwise distinct publish dates,
ordering by `"date_desc"` is the exact reverse of ordering by `"date"`, and
any unrecognized sort key fails with the invalid-argument error
`"Invalid key: ..."` rather than silently defaulting. -/
theorem C7_order_reverse_and_invalid_key (posts : List Post) (_hne : posts ≠ [])
    (hd : posts.Pairwise (fun a b => a.metadata.date ≠ b.metadata.date)) :
    order_by posts "date_desc" = (order_by posts "date").map (fun l => l.reverse)
      ∧ (∀ key, key ∉ (["date", "date_desc", "modified", "modified_desc"] : List String) →
          order_by posts key = .error ("Invalid key: " ++ key)) := by
  constructor
  · have e1 : order_by posts "date_desc" = .ok (List.insertionSort dateGe posts) := by
      simp [order_by]
    have e2 : order_by posts "date" = .ok (List.insertionSort dateLe posts) := by
      simp [order_by]
    rw [e1, e2]
    simp [Except.map]
    exact insertionSort_dateGe_eq_reverse posts hd
  · intro key hk
    simp at hk
    obtain ⟨h1, h2, h3, h4⟩ := hk
    simp [order_by, h1, h2, h3, h4]

/-- C7 witness: the ordering claim evaluated on two concrete date-distinct
posts and the unknown key `"foo"`. -/
theorem C7_order_reverse_and_invalid_key_witness :
    order_by postsC7 "date_desc" = (order_by postsC7 "date").map (fun l => l.reverse)
      ∧ order_by postsC7 "foo" = .error ("Invalid key: " ++ "foo") := by
  have h := C7_order_reverse_and_invalid_key postsC7 (by decide) (by decide)
  exact ⟨h.1, h.2 "foo" (by decide)⟩

/-- C8: searching with no index built fails with the precondition error
`"Search index not built."` — an `Except.error`, distinct from the empty
result `.ok []` — while a built fullmatch index whose rows all fail to match
the query yields `.ok []`, not an error. -/
theorem C8_index_precondition (m : PostsManager) (tokenize : String → List String)
    (kw : String) :
    (m.search_index = none → m.search tokenize kw = .error "Search index not built.")
      ∧ (∀ idx, m.search_index = some idx → m.search_method = .fullmatch →
          (∀ r ∈ idx, rowMatchesFullmatch (lowerStr kw) r = false) →
          m.search tokenize kw = .ok [])
      ∧ Except.error "Search index not built." ≠ (Except.ok [] : Except String (List Post)) := by
  refine ⟨?_, ?_, by simp⟩
  · intro h
    simp [PostsManager.search, h]
  · intro idx hidx hm hnone
    have hfilter : idx.filter (fun r => rowMatchesFullmatch (lowerStr kw) r) = [] :=
      List.filter_eq_nil_iff.2 (by intro a ha; simp [hnone a ha])
    simp [PostsManager.search, hidx, hm, hfilter]

/-- C8 witness: a store built with `build_search_index=False` errors on any
query; a built store returns the empty list on the no-match query `"zz"`. -/
theorem C8_index_precondition_witness :
    mgrC8none.search tokSelf "q" = .error "Search index not built."
      ∧ mgrC8built.search tokSelf "zz" = .ok [] :=
  ⟨(C8_index_precondition mgrC8none tokSelf "q").1 (by decide),
    (C8_index_precondition mgrC8built tokSelf "zz").2.1 [rowC1A, rowC1B]
      (by decide) (by decide) (by decide)⟩

/-- C10: fullmatch search with the empty-string query lower-cases it to `""`,
so every LIKE pattern becomes `"%%"` and matches every row: the search
returns every post of the store, in store order — it neither fails nor treats
the empty query as matching nothing. -/
theorem C10_empty_query_returns_all (docs : List SourceDoc)
    (tokenize : String → List String) :
    (PostsManager.init docs .fullmatch true).search tokenize ""
      = .ok ((PostsManager.init docs .fullmatch true).posts.map Prod.snd) := by
  obtain ⟨hgood, hnd⟩ := loadPosts_good docs
  have hmatch : ∀ r : IndexRow, rowMatchesFullmatch (lowerStr "") r = true := by
    intro r
    have hp : likePattern (lowerStr "") = ['%', '%'] := by decide
    simp [rowMatchesFullmatch, likeStr, hp, likeMatch_pp]
  have e : (PostsManager.init docs .fullmatch true).search tokenize ""
      = .ok (((build_search_index (loadPosts docs)).filter
          (fun r => rowMatchesFullmatch (lowerStr "") r)).filterMap
          (fun r => dlookup (loadPosts docs) r.slug)) := rfl
  rw [e, List.filter_eq_self.2 (fun r _ => hmatch r)]
  unfold build_search_index
  rw [List.filterMap_map]
  rw [filterMap_eq_map_of_some _ _ Prod.snd ?hsome]
  · rfl
  case hsome =>
    intro kv hkv
    show dlookup (loadPosts docs) kv.2.slug = some kv.2
    rw [(hgood kv hkv).1]
    exact dlookup_eq_of_mem _ _ _ hnd hkv

/-- C4: a source document parsed with `published == false` contributes
nothing: every stored post is published (so the unpublished post value is
never stored or returned), the whole store — posts, tag index and search
index — equals the store loaded with the unpublished documents removed, and
every query result (slug lookup, recent, by-tag, search) contains only
published posts. -/
theorem C4_unpublished_invisible (docs : List SourceDoc) (method : SearchMethod)
    (b : Bool) (tokenize : String → List String) :
    (∀ kv ∈ (PostsManager.init docs method b).posts, kv.2.metadata.published = true)
      ∧ PostsManager.init docs method b = PostsManager.init (docs.filter docKeep) method b
      ∧ (∀ slug p, dlookup (PostsManager.init docs method b).posts slug = some p →
          p.metadata.published = true)
      ∧ (∀ n, ∀ p ∈ (PostsManager.init docs method b).recent_posts n,
          p.metadata.published = true)
      ∧ (∀ tag limit, ∀ p ∈ (PostsManager.init docs method b).get_posts_by_tag tag limit,
          p.metadata.published = true)
      ∧ (∀ kw res, (PostsManager.init docs method b).search tokenize kw = .ok res →
          ∀ p ∈ res, p.metadata.published = true) := by
  obtain ⟨hgood, hnd⟩ := loadPosts_good docs
  refine ⟨?_, ?_, ?_, ?_, ?_, ?_⟩
  · intro kv hkv
    exact (hgood kv hkv).2
  · have hfe := loadPosts_filter docs
    unfold PostsManager.init PostsManager.load_posts
    rw [hfe]
  · intro slug p h
    exact (hgood _ (dlookup_mem _ _ _ h)).2
  · intro n p hp
    rw [recent_posts_eq] at hp
    have h1 := List.mem_of_mem_take hp
    have h2 := (List.mem_insertionSort modifiedGe).1 h1
    rcases List.mem_map.1 h2 with ⟨kv, hkv, rfl⟩
    exact (hgood kv hkv).2
  · intro tag limit p hp
    unfold PostsManager.get_posts_by_tag at hp
    have h2 : p ∈ ((PostsManager.init docs method b).posts.map Prod.snd) := by
      rcases limit with _ | n
      · exact (List.mem_filter.1 hp).1
      · exact (List.mem_filter.1 (List.mem_of_mem_take hp)).1
    rcases List.mem_map.1 h2 with ⟨kv, hkv, rfl⟩
    exact (hgood kv hkv).2
  · intro kw res h
    exact search_results_published docs method b tokenize kw res h

/-- C4 witness: on a two-document source with one unpublished document, the
stored post is published and the store equals the store of the filtered
source. -/
theorem C4_unpublished_invisible_witness :
    postC4A.metadata.published = true
      ∧ PostsManager.init docsC4 .fullmatch true
          = PostsManager.init (docsC4.filter docKeep) .fullmatch true :=
  ⟨(C4_unpublished_invisible docsC4 .fullmatch true tokSelf).1 ("a", postC4A) (by decide),
    (C4_unpublished_invisible docsC4 .fullmatch true tokSelf).2.1⟩

end AmiaBlog
